import Mathlib

/-!
Shallow embedding of the record-extraction engine of `vgd_pavlodar_dump.py`:
the block segmenter `parse_records` and the record tokenizer `parse_line`.
Strings are modelled through their underlying character lists (`String.data`);
Python string primitives (`strip`, `split`, `splitlines`, substring search)
and the two regular expressions of the source are embedded as executable
character-list functions.
-/

/-- ASCII whitespace, as recognised by Python `str.strip` / `str.split` and
the regex class for whitespace. Unicode space characters beyond ASCII are not
modelled: all inputs of interest here use ASCII spacing. -/
def isWS (c : Char) : Bool :=
  c == ' ' || c == '\t' || c == '\n' || c == '\r' || c == '\x0b' || c == '\x0c'

/-- ASCII decimal digit, modelling the regex digit class (Python additionally
accepts non-ASCII Unicode decimal digits; those are not modelled). -/
def isDig (c : Char) : Bool :=
  c.isDigit

/-- Python `s.strip()` on a character list. -/
def pstripL (s : List Char) : List Char :=
  ((s.dropWhile isWS).reverse.dropWhile isWS).reverse

/-- Python `s.strip()` on strings. -/
def pstrip (s : String) : String :=
  (pstripL s.data).asString

/-- Does the list `s` start with the list `p`? -/
def startsWith : List Char → List Char → Bool
  | _, [] => true
  | [], _ :: _ => false
  | a :: s, b :: p => a == b && startsWith s p

/-- Index of the first occurrence of `sub` in `s` (Python `s.find(sub)`,
returning `none` when absent). -/
def findSub (sub : List Char) : List Char → Option Nat
  | [] => if startsWith [] sub then some 0 else none
  | c :: t =>
    if startsWith (c :: t) sub then some 0
    else (findSub sub t).map (fun i => i + 1)

/-- Python substring containment `sub in s`. -/
def inStr (sub s : List Char) : Bool :=
  (findSub sub s).isSome

/-- Python `s.split(sep)` for a non-empty separator: split at the leftmost,
non-overlapping occurrences. The fuel argument only serves termination; a fuel of
length plus one always suffices because each step consumes at least one character. -/
def splitOnFuel (sep : List Char) : Nat → List Char → List (List Char)
  | 0, s => [s]
  | fuel + 1, s =>
    match findSub sep s with
    | none => [s]
    | some i => s.take i :: splitOnFuel sep fuel (s.drop (i + sep.length))

/-- Python `s.split(sep)` (the source only uses a fixed non-empty separator). -/
def splitOnL (sep s : List Char) : List (List Char) :=
  splitOnFuel sep (s.length + 1) s

/-- Python `str.splitlines`, restricted to the line boundaries CRLF, CR and LF
(the exotic Unicode boundaries are not modelled; the segmenter's input is
produced with LF separators). `cur` is the current line, accumulated in
reverse. -/
def splitlinesAux : List Char → List Char → List (List Char)
  | '\r' :: '\n' :: rest, cur => cur.reverse :: splitlinesAux rest []
  | '\r' :: rest, cur => cur.reverse :: splitlinesAux rest []
  | '\n' :: rest, cur => cur.reverse :: splitlinesAux rest []
  | c :: rest, cur => splitlinesAux rest (c :: cur)
  | [], cur => if cur.isEmpty then [] else [cur.reverse]

/-- Python `str.splitlines` on a character list. -/
def splitlinesL (s : List Char) : List (List Char) :=
  splitlinesAux s []

/-- Python `s.split()` with no separator: maximal runs of non-whitespace,
no empty pieces. `cur` is the current word, accumulated in reverse. -/
def pysplitAux : List Char → List Char → List (List Char)
  | [], cur => if cur.isEmpty then [] else [cur.reverse]
  | c :: rest, cur =>
    if isWS c then
      if cur.isEmpty then pysplitAux rest [] else cur.reverse :: pysplitAux rest []
    else pysplitAux rest (c :: cur)

/-- Python `s.split()` on a character list. -/
def pysplitL (s : List Char) : List (List Char) :=
  pysplitAux s []

/-- The date regex of the source (`DATE_PATTERN`): two digits, a dot, two
digits, a dot, then two to four digits, the year taken greedily. When a match
starts at the head of `s`, return its length (8, 9 or 10). -/
def dateMatchAt : List Char → Option Nat
  | a :: b :: c :: d :: e :: f :: g :: h :: rest =>
    if isDig a && isDig b && c == '.' && isDig d && isDig e && f == '.' &&
        isDig g && isDig h then
      some (8 + (match rest with
        | y3 :: y4 :: _ => if isDig y3 then if isDig y4 then 2 else 1 else 0
        | [y3] => if isDig y3 then 1 else 0
        | [] => 0))
    else none
  | _ => none

/-- Semantics of `DATE_PATTERN.search`: leftmost match of the date regex, returned as
(start index, match length). -/
def dateSearch : List Char → Option (Nat × Nat)
  | [] => none
  | c :: rest =>
    match dateMatchAt (c :: rest) with
    | some len => some (0, len)
    | none => (dateSearch rest).map (fun p => (p.1 + 1, p.2))

/-- All characters are whitespace. -/
def allWS (s : List Char) : Bool :=
  s.all isWS

/-- The capture group of the gender regex: at the head of `s`, try the
alternation of the three codes, each followed by whitespace only (the regex
tail of whitespace-then-end). -/
def codeAt (s : List Char) : Option (List Char) :=
  if startsWith s "дд".data && allWS (s.drop 2) then some "дд".data
  else if startsWith s "мм".data && allWS (s.drop 2) then some "мм".data
  else if startsWith s "жж".data && allWS (s.drop 2) then some "жж".data
  else none

/-- After the mandatory leading whitespace of the gender regex: skip further
whitespace, then the code must start at the first non-whitespace character. -/
def gTail : List Char → Option (List Char)
  | [] => none
  | c :: rest => if isWS c then gTail rest else codeAt (c :: rest)

/-- Does a match of the gender regex (whitespace, then one of the three codes,
then whitespace to the end) start exactly at the head of `s`? -/
def gMatchAt : List Char → Option (List Char)
  | [] => none
  | c :: rest => if isWS c then gTail rest else none

/-- Semantics of `re.search` of the gender regex: leftmost match, returned as
(start index, captured code). -/
def gSearch : List Char → Option (Nat × List Char)
  | [] => none
  | c :: rest =>
    match gMatchAt (c :: rest) with
    | some code => some (0, code)
    | none => (gSearch rest).map (fun p => (p.1 + 1, p.2))

/-- The output entity of the tokenizer, modelling the Python dict: a field is
`none` when the corresponding key is absent from the dict and `some v` when it
is present with value `v`. -/
structure Record where
  last_name : Option String
  first_name : Option String
  patronymic : Option String
  extra : Option String
  gender : Option String
  date_birth : Option String
  place : Option String
  raw : Option String
deriving DecidableEq, Repr

/-- The tokenizer `parse_line` of the source. A line without a date match is
dropped when shorter than 3 characters and otherwise yields the degraded
record of the source, whose dict carries no `extra` and no `gender` key.
Otherwise the line is split around the first date match, a trailing gender
code is searched in the stripped text before the date, and the remaining
name text is split positionally. -/
def parse_line (line : String) : Option Record :=
  match dateSearch line.data with
  | none =>
    if line.length < 3 then none
    else some { raw := some line, last_name := some "", first_name := some "",
                patronymic := some "", date_birth := some "", place := some "",
                extra := none, gender := none }
  | some (i, len) =>
    let date_str := ((line.data.drop i).take len).asString
    let before0 := pstripL (line.data.take i)
    let after_date := (pstripL (line.data.drop (i + len))).asString
    let gb : String × List Char :=
      match gSearch before0 with
      | some (j, code) => (code.asString, pstripL (before0.take j))
      | none => ("", before0)
    let parts := (pysplitL gb.2).map List.asString
    some { last_name := some (parts.getD 0 ""),
           first_name := some (parts.getD 1 ""),
           patronymic := some (parts.getD 2 ""),
           extra := some (if parts.length > 3 then String.intercalate " " (parts.drop 3) else ""),
           gender := some gb.1,
           date_birth := some date_str,
           place := some after_date,
           raw := some line }

/-- The header marker of the segmenter. -/
def MARKER : List Char :=
  "USER_LAST_NAME USER_NAME USER_TITLE DATE_B NAME_SITE".data

/-- The stop condition of the segmenter: the line contains (as a substring)
the footer username, the double-hash token or the site-name token. -/
def isTerminator (l : List Char) : Bool :=
  inStr "alexalex1804".data l || inStr "##".data l || inStr "VGD.ru".data l

/-- The inner loop of `parse_records` over the lines of one marker-delimited
segment: strip each line, skip empty lines, stop at the first terminator
line, keep the rest. -/
def segmentLoop : List (List Char) → List (List Char)
  | [] => []
  | l :: rest =>
    let t := pstripL l
    if t.isEmpty then segmentLoop rest
    else if isTerminator t then []
    else t :: segmentLoop rest

/-- The candidate lines the segmenter feeds to the tokenizer: split the
flattened page text at the marker, discard everything before the first
occurrence, and run the segment loop on each remaining part. -/
def candidateLines (allText : String) : List (List Char) :=
  (((splitOnL MARKER allText.data).drop 1).map
    (fun part => segmentLoop (splitlinesL (pstripL part)))).flatten

/-- The segmenter `parse_records` of the source, modelled on the flattened
page text (the result of the upstream HTML-to-text flattening with LF
separators): tokenize every candidate line and keep the lines that yield a
record. -/
def parse_records (allText : String) : List Record :=
  ((candidateLines allText).map (fun l => parse_line l.asString)).reduceOption

/-- The first date match of a line, as the tokenizer extracts it. -/
def firstDate (line : String) : Option String :=
  (dateSearch line.data).map (fun p => ((line.data.drop p.1).take p.2).asString)

/-- The stripped text before the first date match of a line (empty when the
line has no date match). -/
def beforeDate (line : String) : List Char :=
  match dateSearch line.data with
  | some p => pstripL (line.data.take p.1)
  | none => []

/-- The ordered name tokens of a line with a date: the text before the date,
after gender removal, split on whitespace. -/
def nameTokens (line : String) : List String :=
  let b0 := beforeDate line
  match gSearch b0 with
  | some p => (pysplitL (pstripL (b0.take p.1))).map List.asString
  | none => (pysplitL b0).map List.asString

/-- The shape actually produced by the source's date regex: two digits, a
dot, two digits, a dot, then two, three or four digits. -/
def codeDateFormL : List Char → Bool
  | [a, b, c, d, e, f, g, h] =>
    isDig a && isDig b && c == '.' && isDig d && isDig e && f == '.' &&
      isDig g && isDig h
  | [a, b, c, d, e, f, g, h, i] =>
    isDig a && isDig b && c == '.' && isDig d && isDig e && f == '.' &&
      isDig g && isDig h && isDig i
  | [a, b, c, d, e, f, g, h, i, j] =>
    isDig a && isDig b && c == '.' && isDig d && isDig e && f == '.' &&
      isDig g && isDig h && isDig i && isDig j
  | _ => false

/-- The shape `codeDateFormL`, on strings. -/
def codeDateForm (s : String) : Bool :=
  codeDateFormL s.data

/-- The date shape in the words of the spec: day.month.year with a 2- or
4-digit year — exactly two digits, a dot, two digits, a dot, then either two
or four digits (no three-digit year). -/
def specDateFormL : List Char → Bool
  | [a, b, c, d, e, f, g, h] =>
    isDig a && isDig b && c == '.' && isDig d && isDig e && f == '.' &&
      isDig g && isDig h
  | [a, b, c, d, e, f, g, h, i, j] =>
    isDig a && isDig b && c == '.' && isDig d && isDig e && f == '.' &&
      isDig g && isDig h && isDig i && isDig j
  | _ => false

/-- The shape `specDateFormL`, on strings. -/
def specDateForm (s : String) : Bool :=
  specDateFormL s.data

/-- Does `s` end with `suf`? -/
def endsWithL (s suf : List Char) : Bool :=
  startsWith s.reverse suf.reverse

/-- Is the character just before the final two characters of `b` whitespace? -/
def wsBeforeLast2 (b : List Char) : Bool :=
  match (b.take (b.length - 2)).getLast? with
  | some w => isWS w
  | none => false

/-- The trailing gender token in the words of the spec: one of the three
codes at the very end of the (already stripped) text before the date,
preceded by whitespace. -/
def genderSuffix (b : List Char) : Option (List Char) :=
  if endsWithL b "дд".data && wsBeforeLast2 b then some "дд".data
  else if endsWithL b "мм".data && wsBeforeLast2 b then some "мм".data
  else if endsWithL b "жж".data && wsBeforeLast2 b then some "жж".data
  else none

example : parse_line "??" = none := by decide
example : (parse_line "abc").isSome = true := by decide

/-! ### Helper lemmas -/

theorem parse_line_raw (line : String) (r : Record) (h : parse_line line = some r) :
    r.raw = some line := by
  unfold parse_line at h
  split at h
  · split at h
    · exact absurd h (by simp)
    · obtain rfl := Option.some.inj h
      rfl
  · obtain rfl := Option.some.inj h
    rfl

theorem dateSearch_matchAt : ∀ (s : List Char) (p : Nat × Nat),
    dateSearch s = some p → dateMatchAt (List.drop p.1 s) = some p.2 := by
  intro s
  induction s with
  | nil => intro p h; simp [dateSearch] at h
  | cons c rest ih =>
    intro p h
    unfold dateSearch at h
    cases hm : dateMatchAt (c :: rest) with
    | some len =>
      rw [hm] at h
      obtain rfl := Option.some.inj h
      simpa using hm
    | none =>
      rw [hm] at h
      obtain ⟨q, hq, rfl⟩ := Option.map_eq_some'.mp h
      simpa using ih q hq

theorem dateMatchAt_form (s : List Char) (len : Nat) (h : dateMatchAt s = some len) :
    codeDateFormL (List.take len s) = true := by
  unfold dateMatchAt at h
  split at h
  case _ a b c d e f g h8 rest =>
    split at h
    case isTrue hc =>
      obtain rfl := Option.some.inj h
      simp only [Bool.and_eq_true] at hc
      obtain ⟨⟨⟨⟨⟨⟨⟨h1, h2⟩, h3⟩, h4⟩, h5⟩, h6⟩, h7⟩, h8d⟩ := hc
      cases rest with
      | nil =>
        simp [codeDateFormL, List.take, h1, h2, h3, h4, h5, h6, h7, h8d]
      | cons y3 rest2 =>
        cases rest2 with
        | nil =>
          by_cases hy3 : isDig y3 = true
          · simp [codeDateFormL, List.take, h1, h2, h3, h4, h5, h6, h7, h8d, hy3]
          · simp only [Bool.not_eq_true] at hy3
            simp [codeDateFormL, List.take, h1, h2, h3, h4, h5, h6, h7, h8d, hy3]
        | cons y4 rest3 =>
          by_cases hy3 : isDig y3 = true
          · by_cases hy4 : isDig y4 = true
            · simp [codeDateFormL, List.take, h1, h2, h3, h4, h5, h6, h7, h8d, hy3, hy4]
            · simp only [Bool.not_eq_true] at hy4
              simp [codeDateFormL, List.take, h1, h2, h3, h4, h5, h6, h7, h8d, hy3, hy4]
          · simp only [Bool.not_eq_true] at hy3
            simp [codeDateFormL, List.take, h1, h2, h3, h4, h5, h6, h7, h8d, hy3]
    case isFalse hc => exact absurd h (by simp)
  case _ => exact absurd h (by simp)

theorem segmentLoop_characterization : ∀ ls : List (List Char),
    segmentLoop ls =
      ((ls.map pstripL).filter (fun l => !l.isEmpty)).takeWhile (fun l => !isTerminator l) := by
  intro ls
  induction ls with
  | nil => rfl
  | cons l rest ih =>
    simp only [segmentLoop, List.map_cons, List.filter_cons]
    by_cases he : (pstripL l).isEmpty
    · simp [he, ih]
    · simp only [Bool.not_eq_true] at he
      by_cases ht : isTerminator (pstripL l)
      · simp [he, ht, List.takeWhile_cons]
      · simp only [Bool.not_eq_true] at ht
        simp [he, ht, List.takeWhile_cons, ih]

theorem splitOnL_of_no_occurrence (sep s : List Char) (h : findSub sep s = none) :
    splitOnL sep s = [s] := by
  unfold splitOnL splitOnFuel
  rw [h]

theorem isTerminator_not_empty (l : List Char) (h : isTerminator l = true) :
    l.isEmpty = false := by
  cases l with
  | nil => exact absurd h (by decide)
  | cons c t => rfl

theorem startsWith_iff : ∀ (p s : List Char), startsWith s p = true ↔ ∃ t, s = p ++ t := by
  intro p
  induction p with
  | nil =>
    intro s
    simp [startsWith]
  | cons b p ih =>
    intro s
    cases s with
    | nil => simp [startsWith]
    | cons a s =>
      simp only [startsWith, Bool.and_eq_true, beq_iff_eq, List.cons_append,
        List.cons.injEq]
      constructor
      · rintro ⟨rfl, h⟩
        obtain ⟨t, rfl⟩ := (ih s).mp h
        exact ⟨t, rfl, rfl⟩
      · rintro ⟨t, rfl, h2⟩
        exact ⟨rfl, (ih s).mpr ⟨t, h2⟩⟩

theorem gSearch_matchAt : ∀ (s : List Char) (p : Nat × List Char),
    gSearch s = some p → gMatchAt (List.drop p.1 s) = some p.2 := by
  intro s
  induction s with
  | nil => intro p h; simp [gSearch] at h
  | cons c rest ih =>
    intro p h
    unfold gSearch at h
    cases hm : gMatchAt (c :: rest) with
    | some code =>
      rw [hm] at h
      obtain rfl := Option.some.inj h
      simpa using hm
    | none =>
      rw [hm] at h
      obtain ⟨q, hq, rfl⟩ := Option.map_eq_some'.mp h
      simpa using ih q hq

theorem gMatchAt_structure (s c : List Char) (h : gMatchAt s = some c) :
    ∃ w rest, s = w :: rest ∧ isWS w = true ∧ gTail rest = some c := by
  cases s with
  | nil => simp [gMatchAt] at h
  | cons a rest =>
    have h2 : (if isWS a = true then gTail rest else none) = some c := h
    by_cases hw : isWS a = true
    · rw [if_pos hw] at h2
      exact ⟨a, rest, rfl, hw, h2⟩
    · rw [if_neg hw] at h2
      exact absurd h2 (by simp)

theorem gTail_structure : ∀ (s c : List Char), gTail s = some c →
    ∃ u v, s = u ++ v ∧ allWS u = true ∧ codeAt v = some c := by
  intro s
  induction s with
  | nil => intro c h; simp [gTail] at h
  | cons a rest ih =>
    intro c h
    unfold gTail at h
    by_cases hw : isWS a = true
    · rw [if_pos hw] at h
      obtain ⟨u, v, rfl, hu, hv⟩ := ih c h
      refine ⟨a :: u, v, rfl, ?_, hv⟩
      simp only [allWS, List.all_cons, Bool.and_eq_true]
      exact ⟨hw, hu⟩
    · rw [if_neg hw] at h
      exact ⟨[], a :: rest, rfl, rfl, h⟩

theorem codeAt_structure (v c : List Char) (h : codeAt v = some c) :
    (c = "дд".data ∨ c = "мм".data ∨ c = "жж".data) ∧
    ∃ w, v = c ++ w ∧ allWS w = true := by
  unfold codeAt at h
  split_ifs at h with h1 h2 h3
  · obtain rfl := Option.some.inj h
    rw [Bool.and_eq_true] at h1
    obtain ⟨hsw, hall⟩ := h1
    obtain ⟨t, rfl⟩ := (startsWith_iff _ _).mp hsw
    exact ⟨Or.inl rfl, t, rfl, hall⟩
  · obtain rfl := Option.some.inj h
    rw [Bool.and_eq_true] at h2
    obtain ⟨hsw, hall⟩ := h2
    obtain ⟨t, rfl⟩ := (startsWith_iff _ _).mp hsw
    exact ⟨Or.inr (Or.inl rfl), t, rfl, hall⟩
  · obtain rfl := Option.some.inj h
    rw [Bool.and_eq_true] at h3
    obtain ⟨hsw, hall⟩ := h3
    obtain ⟨t, rfl⟩ := (startsWith_iff _ _).mp hsw
    exact ⟨Or.inr (Or.inr rfl), t, rfl, hall⟩

theorem dropWhile_head_not (p : Char → Bool) : ∀ (y : List Char) (a : Char),
    (y.dropWhile p).head? = some a → p a = false := by
  intro y
  induction y with
  | nil => intro a h; simp at h
  | cons c y ih =>
    intro a h
    rw [List.dropWhile_cons] at h
    by_cases hc : p c = true
    · rw [if_pos hc] at h
      exact ih a h
    · rw [if_neg hc] at h
      obtain rfl := Option.some.inj h
      simpa using hc

theorem pstripL_trailing (x : List Char) (g : Char)
    (h : (pstripL x).getLast? = some g) : isWS g = false := by
  unfold pstripL at h
  rw [List.getLast?_eq_head?_reverse, List.reverse_reverse] at h
  exact dropWhile_head_not isWS _ g h

theorem getLast?_ws_cons : ∀ (u : List Char) (w : Char), isWS w = true →
    allWS u = true → ∃ g, (w :: u).getLast? = some g ∧ isWS g = true := by
  intro u
  induction u with
  | nil => intro w hw _; exact ⟨w, rfl, hw⟩
  | cons a u ih =>
    intro w hw hu
    simp only [allWS, List.all_cons, Bool.and_eq_true] at hu
    obtain ⟨g, hg, hgw⟩ := ih a hu.1 (by simpa [allWS] using hu.2)
    exact ⟨g, by rw [List.getLast?_cons_cons]; exact hg, hgw⟩

theorem endsWith_append (x c : List Char) : endsWithL (x ++ c) c = true := by
  unfold endsWithL
  rw [List.reverse_append]
  exact (startsWith_iff _ _).mpr ⟨x.reverse, rfl⟩

theorem endsWith_two (x : List Char) (c1 c0 d1 d0 : Char) :
    endsWithL (x ++ [c1, c0]) [d1, d0] = (c0 == d0 && (c1 == d1)) := by
  unfold endsWithL
  rw [List.reverse_append]
  simp [startsWith]

theorem dd_data : "дд".data = ['д', 'д'] := rfl

theorem mm_data : "мм".data = ['м', 'м'] := rfl

theorem zz_data : "жж".data = ['ж', 'ж'] := rfl

theorem wsBeforeLast2_of (X c : List Char) (hc2 : c.length = 2) (g : Char)
    (hg : X.getLast? = some g) (hgw : isWS g = true) :
    wsBeforeLast2 (X ++ c) = true := by
  unfold wsBeforeLast2
  have hlen : (X ++ c).length - 2 = X.length := by
    rw [List.length_append, hc2]
    omega
  rw [hlen, List.take_left, hg]
  exact hgw

theorem gSearch_genderSuffix (b : List Char)
    (hb : ∀ g, b.getLast? = some g → isWS g = false)
    (j : Nat) (c : List Char) (h : gSearch b = some (j, c)) :
    genderSuffix b = some c := by
  have hm := gSearch_matchAt b (j, c) h
  obtain ⟨w, rest, hdrop, hw, ht⟩ := gMatchAt_structure _ _ hm
  obtain ⟨u, v, hrest, hu, hv⟩ := gTail_structure _ _ ht
  obtain ⟨hcodes, t, hvdef, htws⟩ := codeAt_structure _ _ hv
  have hclen : c.length = 2 := by
    rcases hcodes with rfl | rfl | rfl <;> rfl
  rcases t with _ | ⟨a, t2⟩
  case cons =>
    exfalso
    simp only [allWS, List.all_cons, Bool.and_eq_true] at htws
    obtain ⟨g, hg, hgw⟩ := getLast?_ws_cons t2 a htws.1 (by simp [allWS, htws.2])
    have hb1 : b = (List.take j b ++ (w :: (u ++ c))) ++ (a :: t2) := by
      conv_lhs => rw [← List.take_append_drop j b]
      rw [hdrop, hrest, hvdef]
      simp only [List.append_assoc, List.cons_append]
    have hbl : b.getLast? = some g := by
      rw [hb1, List.getLast?_append, hg]
      rfl
    exact absurd hgw (by simp [hb g hbl])
  case nil =>
    have hb1 : b = (List.take j b ++ (w :: u)) ++ c := by
      conv_lhs => rw [← List.take_append_drop j b]
      rw [hdrop, hrest, hvdef]
      simp only [List.append_nil, List.append_assoc, List.cons_append]
    obtain ⟨g, hg, hgw⟩ := getLast?_ws_cons u w hw hu
    have hXg : (List.take j b ++ (w :: u)).getLast? = some g := by
      rw [List.getLast?_append, hg]
      rfl
    have hwb : wsBeforeLast2 b = true := by
      rw [hb1]
      exact wsBeforeLast2_of _ c hclen g hXg hgw
    have hend : endsWithL b c = true := by
      rw [hb1]
      exact endsWith_append _ c
    rcases hcodes with rfl | rfl | rfl
    · unfold genderSuffix
      rw [if_pos (by rw [hend, hwb]; rfl)]
    · have hne : endsWithL b "дд".data = false := by
        rw [hb1, mm_data, dd_data]
        rw [endsWith_two]
        decide
      unfold genderSuffix
      rw [if_neg (by rw [hne]; simp), if_pos (by rw [hend, hwb]; rfl)]
    · have hne1 : endsWithL b "дд".data = false := by
        rw [hb1, zz_data, dd_data]
        rw [endsWith_two]
        decide
      have hne2 : endsWithL b "мм".data = false := by
        rw [hb1, zz_data, mm_data]
        rw [endsWith_two]
        decide
      unfold genderSuffix
      rw [if_neg (by rw [hne1]; simp), if_neg (by rw [hne2]; simp),
        if_pos (by rw [hend, hwb]; rfl)]

theorem gSearch_append_isSome (x v : List Char) (hv : (gMatchAt v).isSome = true) :
    (gSearch (x ++ v)).isSome = true := by
  induction x with
  | nil =>
    rw [List.nil_append]
    cases v with
    | nil => simp [gMatchAt] at hv
    | cons a rest =>
      unfold gSearch
      cases hm : gMatchAt (a :: rest) with
      | some code => rfl
      | none => rw [hm] at hv; simp at hv
  | cons a x ih =>
    rw [List.cons_append]
    unfold gSearch
    cases hm : gMatchAt (a :: (x ++ v)) with
    | some code => rfl
    | none => simpa using ih

theorem suffix_to_gSearch (b c : List Char)
    (hc : c = "дд".data ∨ c = "мм".data ∨ c = "жж".data)
    (he : endsWithL b c = true) (hwb : wsBeforeLast2 b = true) :
    (gSearch b).isSome = true := by
  obtain ⟨t, hbr⟩ := (startsWith_iff _ _).mp he
  have hb : b = t.reverse ++ c := by
    have h2 := congrArg List.reverse hbr
    rwa [List.reverse_reverse, List.reverse_append, List.reverse_reverse] at h2
  have hclen : c.length = 2 := by rcases hc with rfl | rfl | rfl <;> rfl
  have htake : List.take (b.length - 2) b = t.reverse := by
    rw [hb, List.length_append, hclen, Nat.add_sub_cancel]
    exact List.take_left _ _
  unfold wsBeforeLast2 at hwb
  rw [htake] at hwb
  cases hg : t.reverse.getLast? with
  | none => rw [hg] at hwb; exact absurd hwb (by simp)
  | some w =>
    rw [hg] at hwb
    have hww : isWS w = true := hwb
    have hsplit : t.reverse.dropLast ++ [w] = t.reverse :=
      List.dropLast_append_getLast? w (Option.mem_def.mpr hg)
    have hb2 : b = t.reverse.dropLast ++ (w :: c) :=
      calc b = t.reverse ++ c := hb
        _ = (t.reverse.dropLast ++ [w]) ++ c := by rw [hsplit]
        _ = t.reverse.dropLast ++ (w :: c) := by simp
    have hmatch : (gMatchAt (w :: c)).isSome = true := by
      have h3 : gMatchAt (w :: c) = if isWS w = true then gTail c else none := rfl
      rw [h3, if_pos hww]
      rcases hc with rfl | rfl | rfl <;> decide
    rw [hb2]
    exact gSearch_append_isSome _ _ hmatch

theorem gSearch_none_genderSuffix (b : List Char) (hg : gSearch b = none) :
    genderSuffix b = none := by
  cases hs : genderSuffix b with
  | none => rfl
  | some c =>
    exfalso
    unfold genderSuffix at hs
    split_ifs at hs with h1 h2 h3
    · rw [Bool.and_eq_true] at h1
      have := suffix_to_gSearch b "дд".data (Or.inl rfl) h1.1 h1.2
      rw [hg] at this
      simp at this
    · rw [Bool.and_eq_true] at h2
      have := suffix_to_gSearch b "мм".data (Or.inr (Or.inl rfl)) h2.1 h2.2
      rw [hg] at this
      simp at this
    · rw [Bool.and_eq_true] at h3
      have := suffix_to_gSearch b "жж".data (Or.inr (Or.inr rfl)) h3.1 h3.2
      rw [hg] at this
      simp at this

theorem genderSuffix_codes (b c : List Char) (h : genderSuffix b = some c) :
    c = "дд".data ∨ c = "мм".data ∨ c = "жж".data := by
  unfold genderSuffix at h
  split_ifs at h
  · exact Or.inl (Option.some.inj h).symm
  · exact Or.inr (Or.inl (Option.some.inj h).symm)
  · exact Or.inr (Or.inr (Option.some.inj h).symm)

/-! ### Claim theorems -/

/-- Claim C1 (amended): for every input line with no date match and length at
least 3, `parse_line` returns the degraded record: `raw` is the input line,
the `last_name`, `first_name`, `patronymic`, `date_birth` and `place` fields
are empty strings, and the `extra` and `gender` keys are absent from the
returned dict. -/
theorem c1_degraded (line : String) (hd : dateSearch line.data = none)
    (hlen : 3 ≤ line.length) :
    parse_line line =
      some { last_name := some "", first_name := some "", patronymic := some "",
             extra := none, gender := none, date_birth := some "",
             place := some "", raw := some line } := by
  unfold parse_line
  rw [hd, if_neg (by omega)]

/-- Claim C1, counterexample to the claim as stated: the line `"abc"` has no
date and length 3, and `parse_line` does return a record, but its `extra` and
`gender` fields are not the empty string — those keys are absent from the
emitted dict. -/
theorem c1_counterexample :
    (parse_line "abc").isSome = true ∧
    (parse_line "abc").map Record.gender ≠ some (some "") ∧
    (parse_line "abc").map Record.extra ≠ some (some "") := by decide

/-- Claim C1, witness: `c1_degraded` instantiated at the line `"abc"`. -/
theorem c1_witness :
    parse_line "abc" =
      some { last_name := some "", first_name := some "", patronymic := some "",
             extra := none, gender := none, date_birth := some "",
             place := some "", raw := some "abc" } :=
  c1_degraded "abc" (by decide) (by decide)

/-- Claim C7: `parse_line` yields no record exactly when the line has no date
match and its length is below 3; every other line yields a record (the
function is total, so no input aborts processing). -/
theorem c7_drop_iff (line : String) :
    parse_line line = none ↔ dateSearch line.data = none ∧ line.length < 3 := by
  unfold parse_line
  cases hd : dateSearch line.data with
  | none =>
    by_cases hl : line.length < 3
    · simp [hl]
    · simp [hl]
  | some p =>
    obtain ⟨i, len⟩ := p
    simp

/-- Claim C8: re-tokenizing a produced record's `raw` field reproduces the
identical record. -/
theorem c8_idempotent (line s : String) (r : Record) (h1 : parse_line line = some r)
    (h2 : r.raw = some s) : parse_line s = some r := by
  have hr := parse_line_raw line r h1
  rw [hr] at h2
  obtain rfl := Option.some.inj h2
  exact h1

/-- Claim C8, witness: `c8_idempotent` instantiated at the scenario line of
the spec. -/
theorem c8_witness :
    parse_line "Иванов Пётр Сергеевич мм 12.03.1920 с. Покровка" =
      some { last_name := some "Иванов", first_name := some "Пётр",
             patronymic := some "Сергеевич", extra := some "",
             gender := some "мм", date_birth := some "12.03.1920",
             place := some "с. Покровка",
             raw := some "Иванов Пётр Сергеевич мм 12.03.1920 с. Покровка" } :=
  c8_idempotent "Иванов Пётр Сергеевич мм 12.03.1920 с. Покровка"
    "Иванов Пётр Сергеевич мм 12.03.1920 с. Покровка"
    { last_name := some "Иванов", first_name := some "Пётр",
      patronymic := some "Сергеевич", extra := some "",
      gender := some "мм", date_birth := some "12.03.1920",
      place := some "с. Покровка",
      raw := some "Иванов Пётр Сергеевич мм 12.03.1920 с. Покровка" }
    (by decide) (by decide)

/-- Claim C9: terminator detection is by substring containment, so a line
that merely contains one of the three terminator tokens anywhere cuts its
segment: every line from it onward (itself included) is dropped, hence
produces no record. -/
theorem c9_terminator_cut (t : List Char) (pre post : List (List Char))
    (h : isTerminator (pstripL t) = true) :
    segmentLoop (pre ++ t :: post) = segmentLoop pre := by
  induction pre with
  | nil =>
    simp only [List.nil_append, segmentLoop, isTerminator_not_empty _ h, h]
    rfl
  | cons l rest ih =>
    simp only [List.cons_append, segmentLoop]
    by_cases he : (pstripL l).isEmpty <;> by_cases ht : isTerminator (pstripL l) <;>
      simp [he, ht, ih]

/-- Claim C9, witness: a data line containing a double-hash amid other text
cuts the segment, dropping itself and the genuine line after it. -/
theorem c9_witness :
    segmentLoop ["ab".data, "x ## y".data, "cd".data] = segmentLoop ["ab".data] :=
  c9_terminator_cut "x ## y".data ["ab".data] ["cd".data] (by decide)

/-- Claim C2: the segmenter drops everything before the first marker
occurrence and returns no record when the marker is absent (first conjunct);
within each marker-delimited part it keeps the stripped non-empty lines in
source order up to (and excluding) the first terminator line, concatenating
the surviving lines of all parts in source order (second conjunct). The
segmenter is a total function, so malformed input never aborts. -/
theorem c2_segmenter :
    (∀ doc : String, inStr MARKER doc.data = false → parse_records doc = []) ∧
    (∀ doc : String, candidateLines doc =
      (((splitOnL MARKER doc.data).drop 1).map (fun part =>
        (((splitlinesL (pstripL part)).map pstripL).filter (fun l => !l.isEmpty)).takeWhile
          (fun l => !isTerminator l))).flatten) := by
  constructor
  · intro doc h
    have hn : findSub MARKER doc.data = none := by
      unfold inStr at h
      cases hf : findSub MARKER doc.data with
      | none => rfl
      | some i => rw [hf] at h; simp at h
    unfold parse_records candidateLines
    rw [splitOnL_of_no_occurrence _ _ hn]
    rfl
  · intro doc
    unfold candidateLines
    simp [segmentLoop_characterization]

/-- Claim C2, witness: a document without the marker yields no record, and on
a concrete two-part document the candidate lines are as characterized. -/
theorem c2_witness :
    parse_records "just some page text" = [] :=
  c2_segmenter.1 "just some page text" (by decide)

/-- Claim C3, counterexample to the claim as stated: the line
`"aa 01.02.345"` contains the valid dd.mm.yy date substring `"01.02.34"`,
yet `date_birth` is `"01.02.345"` — the regex year is two to four digits
taken greedily, so a three-digit year is captured, and the result is of
neither the dd.mm.yy nor the dd.mm.yyyy form. -/
theorem c3_counterexample :
    inStr "01.02.34".data "aa 01.02.345".data = true ∧
    specDateForm "01.02.34" = true ∧
    (parse_line "aa 01.02.345").map Record.date_birth = some (some "01.02.345") ∧
    "01.02.345" ≠ "01.02.34" ∧
    specDateForm "01.02.345" = false := by decide

/-- Claim C3 (amended): for every line on which the date regex matches,
`parse_line` returns a record whose `date_birth` is exactly the first, greedy
match of the pattern two digits, dot, two digits, dot, two-to-four digits,
and whose `raw` is the input line unchanged. -/
theorem c3_first_match (line : String) (h : (firstDate line).isSome = true) :
    (parse_line line).map Record.date_birth = some (firstDate line) ∧
    (parse_line line).map Record.raw = some (some line) := by
  cases hd : dateSearch line.data with
  | none => unfold firstDate at h; rw [hd] at h; simp at h
  | some p =>
    obtain ⟨i, len⟩ := p
    unfold parse_line firstDate
    rw [hd]
    simp

/-- Claim C3, witness: `c3_first_match` instantiated at a concrete line. -/
theorem c3_witness :
    (parse_line "ab 01.02.2003 xy").map Record.date_birth =
      some (firstDate "ab 01.02.2003 xy") ∧
    (parse_line "ab 01.02.2003 xy").map Record.raw = some (some "ab 01.02.2003 xy") :=
  c3_first_match "ab 01.02.2003 xy" (by decide)

/-- Claim C4, counterexample to the claim as stated: `date_birth` can be
`"01.02.345"`, which is neither empty nor of the dd.mm.yy / dd.mm.yyyy shape
the claim allows (the year has three digits). -/
theorem c4_counterexample :
    (parse_line "aa 01.02.345").map Record.date_birth = some (some "01.02.345") ∧
    specDateForm "01.02.345" = false ∧ "01.02.345" ≠ "" := by decide

/-- Claim C4 (amended): every `date_birth` field emitted by `parse_line` is
either the empty string or of the shape two digits, dot, two digits, dot,
then two, three or four digits. -/
theorem c4_date_shape (line : String) (r : Record) (d : String)
    (h1 : parse_line line = some r) (h2 : r.date_birth = some d) :
    d = "" ∨ codeDateForm d = true := by
  unfold parse_line at h1
  split at h1
  · split at h1
    · exact absurd h1 (by simp)
    · obtain rfl := Option.some.inj h1
      left
      exact (Option.some.inj h2).symm
  · next i len hd =>
    obtain rfl := Option.some.inj h1
    right
    simp only at h2
    have hdd := Option.some.inj h2
    subst hdd
    have hm := dateSearch_matchAt line.data (i, len) hd
    exact dateMatchAt_form (List.drop i line.data) len hm

/-- Claim C4, witness: `c4_date_shape` instantiated at a concrete line whose
date has a four-digit year. -/
theorem c4_witness :
    ("12.03.1920" : String) = "" ∨ codeDateForm "12.03.1920" = true :=
  c4_date_shape "ab 12.03.1920"
    { last_name := some "ab", first_name := some "", patronymic := some "",
      extra := some "", gender := some "", date_birth := some "12.03.1920",
      place := some "", raw := some "ab 12.03.1920" }
    "12.03.1920" (by decide) (by decide)

/-- Claim C5: for every line with a date match, the record's name fields are
assigned positionally from the whitespace-split tokens of the text before the
date after gender removal: token 0 is `last_name`, token 1 is `first_name`,
token 2 is `patronymic`, the tokens beyond index 2 joined with single spaces
are `extra`, and missing positions give empty strings. -/
theorem c5_positional (line : String) (r : Record) (h1 : parse_line line = some r)
    (h2 : (firstDate line).isSome = true) :
    r.last_name = some ((nameTokens line).getD 0 "") ∧
    r.first_name = some ((nameTokens line).getD 1 "") ∧
    r.patronymic = some ((nameTokens line).getD 2 "") ∧
    r.extra = some (String.intercalate " " ((nameTokens line).drop 3)) := by
  cases hd : dateSearch line.data with
  | none => unfold firstDate at h2; rw [hd] at h2; simp at h2
  | some p =>
    obtain ⟨i, len⟩ := p
    simp only [parse_line, hd] at h1
    obtain rfl := Option.some.inj h1
    simp only [nameTokens, beforeDate, hd]
    cases hg : gSearch (pstripL (List.take i line.data)) with
    | none =>
      refine ⟨rfl, rfl, rfl, ?_⟩
      show some _ = _
      by_cases hlen : (pysplitL (pstripL (List.take i line.data))).length > 3
      · simp [hlen]
      · have hdrop :
            List.drop 3 (List.map List.asString (pysplitL (pstripL (List.take i line.data)))) =
              [] :=
          List.drop_eq_nil_of_le (by simp; omega)
        simp [hlen, hdrop]
        rfl
    | some q =>
      obtain ⟨j, code⟩ := q
      refine ⟨rfl, rfl, rfl, ?_⟩
      show some _ = _
      by_cases hlen : (pysplitL (pstripL (List.take j (pstripL (List.take i line.data))))).length > 3
      · simp [hlen]
      · have hdrop :
            List.drop 3 (List.map List.asString
              (pysplitL (pstripL (List.take j (pstripL (List.take i line.data)))))) = [] :=
          List.drop_eq_nil_of_le (by simp; omega)
        simp [hlen, hdrop]
        rfl

/-- Claim C5, witness: `c5_positional` instantiated at the short scenario
line of the spec (missing patronymic and extra positions give empty
strings). -/
theorem c5_witness :
    (some "Сидорова" : Option String) = some ((nameTokens "Сидорова Анна дд 01.01.05").getD 0 "") ∧
    (some "Анна" : Option String) = some ((nameTokens "Сидорова Анна дд 01.01.05").getD 1 "") ∧
    (some "" : Option String) = some ((nameTokens "Сидорова Анна дд 01.01.05").getD 2 "") ∧
    (some "" : Option String) = some (String.intercalate " " ((nameTokens "Сидорова Анна дд 01.01.05").drop 3)) :=
  c5_positional "Сидорова Анна дд 01.01.05"
    { last_name := some "Сидорова", first_name := some "Анна",
      patronymic := some "", extra := some "", gender := some "дд",
      date_birth := some "01.01.05", place := some "",
      raw := some "Сидорова Анна дд 01.01.05" } (by decide) (by decide)

/-- Claim C10: when the stripped text before the date is exactly one of the
gender codes (no preceding token, hence no whitespace before the code), the
code is not extracted as gender: `gender` is the empty string and the code
becomes `last_name`. -/
theorem c10_lone_code (line : String) (r : Record) (h1 : parse_line line = some r)
    (h2 : beforeDate line = "дд".data ∨ beforeDate line = "мм".data ∨
      beforeDate line = "жж".data) :
    r.gender = some "" ∧ r.last_name = some (beforeDate line).asString := by
  cases hd : dateSearch line.data with
  | none =>
    unfold beforeDate at h2
    rw [hd] at h2
    rcases h2 with h2 | h2 | h2
    · exact absurd (show ([] : List Char) = "дд".data from h2) (by decide)
    · exact absurd (show ([] : List Char) = "мм".data from h2) (by decide)
    · exact absurd (show ([] : List Char) = "жж".data from h2) (by decide)
  | some p =>
    obtain ⟨i, len⟩ := p
    have hb : beforeDate line = pstripL (List.take i line.data) := by
      unfold beforeDate
      rw [hd]
    simp only [parse_line, hd] at h1
    obtain rfl := Option.some.inj h1
    rw [hb] at h2 ⊢
    rcases h2 with h2 | h2 | h2 <;> rw [h2] <;> exact ⟨rfl, rfl⟩

/-- Claim C10, witness: `c10_lone_code` instantiated at a line whose text
before the date is exactly the code `"дд"`. -/
theorem c10_witness :
    (some "" : Option String) = some "" ∧
    (some "дд" : Option String) = some (beforeDate "дд 01.01.2000").asString := by
  have h := c10_lone_code "дд 01.01.2000"
    { last_name := some "дд", first_name := some "", patronymic := some "",
      extra := some "", gender := some "", date_birth := some "01.01.2000",
      place := some "", raw := some "дд 01.01.2000" } (by decide) (by decide)
  exact ⟨h.1 ▸ rfl, h.2 ▸ rfl⟩

/-- Claim C6, counterexample to the claim as stated: the gender codes of the
code are two letters long, not three — the extracted gender `"мм"` has length
2, so gender is not drawn from a set of three-letter codes. -/
theorem c6_counterexample :
    (parse_line "Иванов мм 01.01.2000").map Record.gender = some (some "мм") ∧
    ("мм" : String).length = 2 ∧ ¬ ("мм" : String).length = 3 := by decide

/-- Claim C6 (amended): for every line with a date match, if the stripped
text before the date ends with a gender token — one of the fixed two-letter
codes from a closed set of three — preceded by whitespace (and followed by
nothing, the text before the date being stripped), `parse_line` extracts it
as the `gender` field; otherwise `gender` is the empty string. Hence gender
is always one of the three codes or empty. -/
theorem c6_gender (line : String) (r : Record) (h1 : parse_line line = some r)
    (h2 : (firstDate line).isSome = true) :
    r.gender = some ((genderSuffix (beforeDate line)).elim "" List.asString) ∧
    (r.gender = some "" ∨ r.gender = some "дд" ∨ r.gender = some "мм" ∨
      r.gender = some "жж") := by
  cases hd : dateSearch line.data with
  | none =>
    unfold firstDate at h2
    rw [hd] at h2
    simp at h2
  | some p =>
    obtain ⟨i, len⟩ := p
    have hb : beforeDate line = pstripL (List.take i line.data) := by
      unfold beforeDate
      rw [hd]
    simp only [parse_line, hd] at h1
    obtain rfl := Option.some.inj h1
    rw [hb]
    cases hg : gSearch (pstripL (List.take i line.data)) with
    | none =>
      rw [gSearch_none_genderSuffix _ hg]
      exact ⟨rfl, Or.inl rfl⟩
    | some q =>
      obtain ⟨j, code⟩ := q
      have hsuf := gSearch_genderSuffix (pstripL (List.take i line.data))
        (fun g hg2 => pstripL_trailing _ g hg2) j code hg
      rw [hsuf]
      rcases genderSuffix_codes _ _ hsuf with rfl | rfl | rfl
      · exact ⟨rfl, Or.inr (Or.inl rfl)⟩
      · exact ⟨rfl, Or.inr (Or.inr (Or.inl rfl))⟩
      · exact ⟨rfl, Or.inr (Or.inr (Or.inr rfl))⟩

/-- Claim C6, witness: `c6_gender` instantiated at a line whose before-text
ends with the code `"жж"` preceded by whitespace. -/
theorem c6_witness :
    (some "жж" : Option String) =
      some ((genderSuffix (beforeDate "Казакова жж 05.06.07")).elim "" List.asString) ∧
    ((some "жж" : Option String) = some "" ∨ (some "жж" : Option String) = some "дд" ∨
      (some "жж" : Option String) = some "мм" ∨
      (some "жж" : Option String) = some "жж") :=
  c6_gender "Казакова жж 05.06.07"
    { last_name := some "Казакова", first_name := some "", patronymic := some "",
      extra := some "", gender := some "жж", date_birth := some "05.06.07",
      place := some "", raw := some "Казакова жж 05.06.07" }
    (by decide) (by decide)
